import Mathlib

/-!
Verification of the himl configuration engine (hierarchical YAML merge +
interpolation resolution).  The definitions below are a shallow embedding of
the Python sources in `himl/interpolation.py`, `himl/config_generator.py` and
`himl/inject_env.py`:

* `Value` models the in-memory YAML document tree (strings, ints, bools,
  floats, null, lists, ordered string-keyed maps);
* the `is_interpolation` family models the pre-compiled regular expressions
  at the top of `interpolation.py` (`re.search` / `re.match` semantics,
  including the `[^` + backtick + `]` classes, lazy `.*?` over non-newline
  characters, and `$` accepting one trailing newline);
* `FromDictInjector`, `FullBlobInjector`, the resolver wrappers, the
  validator and the escape cleaner follow the corresponding Python classes;
* the merge engine (`merge_yamls`, `merge_value`, `process_hierarchy`) and
  the `ConfigProcessor.process` orchestration follow `config_generator.py`.

Python exceptions are modelled with `Except String`; in-place mutation of the
document during an interpolation pass is modelled by threading the document
root through the traversal (see `walkShape`).
-/

namespace Himl

/-- Document tree: the mixed YAML value structure produced by the safe YAML
loader.  Mapping entries keep insertion order, as Python dicts do.  Floats
carry a rational payload; no arithmetic is ever performed on them, they are
only stored, compared by type and (for list dedup) by value. -/
inductive Value where
  | str (s : String)
  | int (n : Int)
  | bool (b : Bool)
  | float (x : Rat)
  | null
  | list (xs : List Value)
  | dict (es : List (String × Value))

/-! ### String helpers (Python `in`, slicing, `str.replace`) -/

/-- Helper for substring containment: does `pat` occur in the scanned list? -/
def listContainsSub (pat : List Char) : List Char → Bool
  | [] => pat.isEmpty
  | c :: rest => pat.isPrefixOf (c :: rest) || listContainsSub pat rest

/-- Python substring containment `pat in s`.  The empty pattern is contained
in every string, as in Python. -/
def strContains (s pat : String) : Bool :=
  listContainsSub pat.toList s.toList

/-- Python's `re.sub(r"\s+", "", value)` used by `remove_white_spaces`:
drops every whitespace character. -/
def remove_white_spaces (value : String) : String :=
  ⟨value.toList.filter (fun c => ¬ c.isWhitespace)⟩

/-- Replacement of every non-overlapping occurrence of `pat`, left to right
(Python `str.replace`; `pat` is never empty at the call sites).  `skip`
counts characters still covered by the last match. -/
def replaceSub (pat rep : List Char) (skip : Nat) : List Char → List Char
  | [] => []
  | c :: rest =>
    match skip with
    | n + 1 => replaceSub pat rep n rest
    | 0 =>
      if pat ≠ [] ∧ pat.isPrefixOf (c :: rest) then
        rep ++ replaceSub pat rep (pat.length - 1) rest
      else c :: replaceSub pat rep 0 rest

/-- Python `s.replace(pat, rep)`. -/
def strReplace (s pat rep : String) : String :=
  ⟨replaceSub pat.toList rep.toList 0 s.toList⟩

/-- Python slicing `s[n:]`. -/
def strDrop (s : String) (n : Nat) : String :=
  ⟨s.toList.drop n⟩

/-- Python slicing `s[:-n]` (empty when the string is shorter than `n`). -/
def strDropRight (s : String) (n : Nat) : String :=
  ⟨s.toList.take (s.toList.length - n)⟩

/-- Python `s.startswith(pat)`. -/
def strStartsWith (s pat : String) : Bool :=
  pat.toList.isPrefixOf s.toList

/-- Python `s.endswith(pat)`. -/
def strEndsWith (s pat : String) : Bool :=
  pat.toList.reverse.isPrefixOf s.toList.reverse

/-- Python `s.split('.')` — split on every dot, keeping empty segments. -/
def splitOnDot : List Char → List (List Char)
  | [] => [[]]
  | c :: rest =>
    if c = '.' then [] :: splitOnDot rest
    else
      match splitOnDot rest with
      | h :: t => (c :: h) :: t
      | [] => [[c]]

/-- Lexicographic code-point comparison of character lists, as Python
compares strings. -/
def charListLe : List Char → List Char → Bool
  | [], _ => true
  | _ :: _, [] => false
  | a :: as, b :: bs =>
    if a.toNat < b.toNat then true
    else if a.toNat = b.toNat then charListLe as bs
    else false

/-- Python string comparison `a <= b`, used by `sorted`. -/
def fileLe (a b : String) : Bool :=
  charListLe a.toList b.toList

/-- Python `s.strip()`: remove leading and trailing whitespace. -/
def strTrim (s : String) : String :=
  ⟨((s.toList.dropWhile Char.isWhitespace).reverse.dropWhile
      Char.isWhitespace).reverse⟩

/-! ### The four pre-compiled regular expressions of `interpolation.py`

`_INTERPOLATION_PATTERN  = r'\x7b\x7b[^`].*?[^`]\x7d\x7d'` (searched),
`_ESCAPED_PATTERN        = r'\x7b\x7b`.*?`\x7d\x7d'` (searched),
`_FULL_INTERPOLATION_PATTERN` and `_FULLY_ESCAPED_PATTERN` are the same two
patterns anchored with `^...$` and used with `re.match`.
`.` does not match a newline (no DOTALL); `$` matches at the end of the
string or just before one final trailing newline.  Each scanner below decides
existence of a match. -/

/-- Tail matcher for `.*?[^`]\x7d\x7d` inside a search: some non-newline
run, then one non-backtick character, then two closing braces. -/
def interpTail : List Char → Bool
  | [] => false
  | d :: rest =>
    (d ≠ '`' && rest.take 2 = ['}', '}']) || (d ≠ '\n' && interpTail rest)

/-- Does a match of `_INTERPOLATION_PATTERN` start at the head of `cs`? -/
def interpHere : List Char → Bool
  | '{' :: '{' :: c :: rest => c ≠ '`' && interpTail rest
  | _ => false

/-- Search: does `_INTERPOLATION_PATTERN` match anywhere in `cs`? -/
def interpSearch : List Char → Bool
  | [] => false
  | c :: rest => interpHere (c :: rest) || interpSearch rest

/-- Tail matcher for the escaped pattern: a non-newline run followed by a
backtick and two closing braces. -/
def escapedTail : List Char → Bool
  | [] => false
  | d :: rest =>
    (d = '`' && rest.take 2 = ['}', '}']) || (d ≠ '\n' && escapedTail rest)

/-- Does a match of `_ESCAPED_PATTERN` start at the head of `cs`? -/
def escapedHere : List Char → Bool
  | '{' :: '{' :: '`' :: rest => escapedTail rest
  | _ => false

/-- Search: does `_ESCAPED_PATTERN` match anywhere in `cs`? -/
def escapedSearch : List Char → Bool
  | [] => false
  | c :: rest => escapedHere (c :: rest) || escapedSearch rest

/-- End-of-string acceptance for `$`: nothing left, or exactly one final
newline. -/
def dollarEnd : List Char → Bool
  | [] => true
  | ['\n'] => true
  | _ => false

/-- Anchored tail for `^\x7b\x7b[^`].*?[^`]\x7d\x7d$`. -/
def fullInterpTail : List Char → Bool
  | [] => false
  | d :: rest =>
    (d ≠ '`' && rest.take 2 = ['}', '}'] && dollarEnd (rest.drop 2)) ||
      (d ≠ '\n' && fullInterpTail rest)

/-- Match of `_FULL_INTERPOLATION_PATTERN` (anchored at both ends). -/
def fullInterpMatch : List Char → Bool
  | '{' :: '{' :: c :: rest => c ≠ '`' && fullInterpTail rest
  | _ => false

/-- Anchored tail for `^\x7b\x7b`.*?`\x7d\x7d$`. -/
def fullyEscapedTail : List Char → Bool
  | [] => false
  | d :: rest =>
    (d = '`' && rest.take 2 = ['}', '}'] && dollarEnd (rest.drop 2)) ||
      (d ≠ '\n' && fullyEscapedTail rest)

/-- Match of `_FULLY_ESCAPED_PATTERN` (anchored at both ends). -/
def fullyEscapedMatch : List Char → Bool
  | '{' :: '{' :: '`' :: rest => fullyEscapedTail rest
  | _ => false

/-- Source `_is_interpolation_cached`: an interpolation pattern occurs and no
escaped pattern occurs. -/
def is_interpolation (value : String) : Bool :=
  interpSearch value.toList && !escapedSearch value.toList

/-- Source `_is_escaped_interpolation_cached`. -/
def is_escaped_interpolation (value : String) : Bool :=
  escapedSearch value.toList

/-- Source `_is_fully_escaped_interpolation_cached`. -/
def is_fully_escaped_interpolation (value : String) : Bool :=
  fullyEscapedMatch value.toList

/-- Source `_is_full_interpolation_cached`: the anchored interpolation
pattern matches and the value is not a fully escaped interpolation. -/
def is_full_interpolation (value : String) : Bool :=
  fullInterpMatch value.toList && !is_fully_escaped_interpolation value

/-- The public `is_interpolation` has an `isinstance(value, string_types)`
guard; on a document value it is true only for strings. -/
def isInterpolationValue : Value → Bool
  | .str s => is_interpolation s
  | _ => false

/-! ### Ordered association-list operations (Python dict semantics) -/

/-- Lookup of a key in an insertion-ordered mapping. -/
def alookup : List (String × Value) → String → Option Value
  | [], _ => none
  | (k, v) :: rest, key => if k = key then some v else alookup rest key

/-- Assignment `d[key] = nv` for a key already present: the entry keeps its
position.  (Callers only use this when the key is present.) -/
def aset : List (String × Value) → String → Value → List (String × Value)
  | [], _, _ => []
  | (k, v) :: rest, key, nv =>
    if k = key then (k, nv) :: aset rest key nv else (k, v) :: aset rest key nv

/-- Python `key in d` for a mapping. -/
def hasKey (es : List (String × Value)) (key : String) : Bool :=
  (alookup es key).isSome

/-! ### FromDictInjector (`interpolation.py`) -/

/-! Source `FromDictInjector._parse_leaves_cached`: flatten every primitive
leaf (str/int/float/bool — not None, not lists) to its dotted path, in
document order.  `pk` is the accumulated partial key. -/
mutual

def parse_leaves (pk : String) : Value → List (String × Value)
  | .str s => [(pk, .str s)]
  | .int n => [(pk, .int n)]
  | .bool b => [(pk, .bool b)]
  | .float x => [(pk, .float x)]
  | .dict es => parse_leaves_entries pk es
  | _ => []

def parse_leaves_entries (pk : String) : List (String × Value) → List (String × Value)
  | [] => []
  | (k, v) :: rest =>
    parse_leaves (if pk = "" then k else pk ++ "." ++ k) v ++
      parse_leaves_entries pk rest

end

/-- Source `FromDictInjector.resolve`: walk the flattened leaves in order;
on the first placeholder hit whose leaf is an int/bool, return that native
value; a float leaf reaches Python's `str.replace` with a non-string
argument and raises `TypeError`; a non-interpolation string leaf is
substituted textually; an interpolation-valued leaf is skipped. -/
def fromDictResolve : List (String × Value) → String → Except String Value
  | [], line => .ok (.str line)
  | (key, value) :: rest, line =>
    let ph := "\x7b\x7b" ++ key ++ "\x7d\x7d"
    if ¬ strContains line ph then fromDictResolve rest line
    else
      match value with
      | .int n => .ok (.int n)
      | .bool b => .ok (.bool b)
      | .float _ => .error "TypeError: replace() argument 2 must be str, not float"
      | .str sv =>
        if is_interpolation sv then fromDictResolve rest line
        else fromDictResolve rest (strReplace line ph sv)
      | _ => fromDictResolve rest line

/-! ### FullBlobInjector (`interpolation.py`) -/

/-- Short Python type name, for `TypeError` messages. -/
def pyShortTypeName : Value → String
  | .str _ => "str"
  | .int _ => "int"
  | .bool _ => "bool"
  | .float _ => "float"
  | .null => "NoneType"
  | .list _ => "list"
  | .dict _ => "dict"

/-- Source `FullBlobInjector.get_inner_value`: follow each dotted-path key
with Python's `if key in data: data = data[key] else: return None`.  On a
mapping this is key lookup; on a list, membership of the string key followed
by a string-index `TypeError` on a hit; on a string, substring containment
followed by a string-index `TypeError` on a hit; on any other value Python's
`in` itself raises `TypeError`. -/
def get_inner_value : List String → Value → Except String (Option Value)
  | [], data => .ok (some data)
  | key :: rest, data =>
    match data with
    | .dict es =>
      match alookup es key with
      | some v => get_inner_value rest v
      | none => .ok none
    | .list xs =>
      if xs.any (fun x => match x with | .str s => s = key | _ => false) then
        .error "TypeError: list indices must be integers or slices, not str"
      else .ok none
    | .str s =>
      if strContains s key then
        .error "TypeError: string indices must be integers"
      else .ok none
    | v => .error ("TypeError: argument of type \x27" ++ pyShortTypeName v ++ "\x27 is not iterable")

/-- Source `FullBlobInjector.get_keys_from_interpolation`: strip the outer
braces and split on dots. -/
def get_keys_from_interpolation (line : String) : List String :=
  (splitOnDot (strDropRight (strDrop line 2) 2).toList).map
    (fun cs => (⟨cs⟩ : String))

/-- The source's `is_valid_value` test:
`resolved_value is not None and not is_interpolation(resolved_value)`.
A missing path and a document `None` both surface as Python `None`. -/
def isValidBlobResult : Option Value → Bool
  | none => false
  | some .null => false
  | some v => !isInterpolationValue v

/-- Source `FullBlobInjector.resolve`: only a full-token scalar is resolved;
the dotted path is walked on the live document; an invalid result (missing
segment, `None`, or a still-unresolved interpolation) keeps the original
token. -/
def fullBlobResolve (line : Value) (data : Value) : Except String Value :=
  match line with
  | .str s =>
    if ¬ is_full_interpolation s then .ok (.str s)
    else
      match get_inner_value (get_keys_from_interpolation s) data with
      | .error e => .error e
      | .ok resolved =>
        if isValidBlobResult resolved then .ok (resolved.getD (.str s))
        else .ok (.str s)
  | v => .ok v

/-! ### Traversal (`DictIterator.loop_all_items`) -/

/-! Generic walker applying a transform to every string scalar, rebuilding
lists and reassigning mapping entries in order; non-string scalars pass
through untouched.  Models `DictIterator.loop_all_items` for process
functions that do not consult the document root. -/
mutual

def loopAllItems (f : String → Except String Value) : Value → Except String Value
  | .str s => f s
  | .list xs =>
    match loopItemsList f xs with
    | .error e => .error e
    | .ok ys => .ok (.list ys)
  | .dict es =>
    match loopItemsDict f es with
    | .error e => .error e
    | .ok fs => .ok (.dict fs)
  | v => .ok v

def loopItemsList (f : String → Except String Value) : List Value → Except String (List Value)
  | [] => .ok []
  | x :: rest =>
    match loopAllItems f x with
    | .error e => .error e
    | .ok y =>
      match loopItemsList f rest with
      | .error e => .error e
      | .ok ys => .ok (y :: ys)

def loopItemsDict (f : String → Except String Value) :
    List (String × Value) → Except String (List (String × Value))
  | [] => .ok []
  | (k, v) :: rest =>
    match loopAllItems f v with
    | .error e => .error e
    | .ok w =>
      match loopItemsDict f rest with
      | .error e => .error e
      | .ok ws => .ok ((k, w) :: ws)

end

/-! Pure variant of the walker, for transforms that cannot raise
(`resolve_simple_interpolations`). -/
mutual

def mapDocStrings (f : String → Value) : Value → Value
  | .str s => f s
  | .list xs => .list (mapDocStringsList f xs)
  | .dict es => .dict (mapDocStringsDict f es)
  | v => v

def mapDocStringsList (f : String → Value) : List Value → List Value
  | [] => []
  | x :: rest => mapDocStrings f x :: mapDocStringsList f rest

def mapDocStringsDict (f : String → Value) :
    List (String × Value) → List (String × Value)
  | [] => []
  | (k, v) :: rest => (k, mapDocStrings f v) :: mapDocStringsDict f rest

end

/-! ### Live traversal for the self-document pass

`DictInterpolationResolver` mutates the shared document while walking it, and
`FullBlobInjector.resolve` reads the live (partially rewritten) root.  The
walker below follows the original tree shape, threading the current root and
writing each resolved scalar back at its path.  (In the source a list is
rebuilt and written back to its parent key after its items are processed;
the immediate write used here is indistinguishable unless a reference reads
a list whose string items are being rewritten in the same pass.) -/

/-- One path component inside the document. -/
inductive Step where
  | key (k : String)
  | idx (n : Nat)

/-- Replacement of the subtree at a path. -/
def modifyAt : List Step → Value → Value → Value
  | [], r, _ => r
  | .key k :: p, r, .dict es =>
    .dict (es.map fun kv => if kv.1 = k then (kv.1, modifyAt p r kv.2) else kv)
  | .idx i :: p, r, .list xs =>
    .list (xs.mapIdx fun j x => if j = i then modifyAt p r x else x)
  | _ :: _, _, v => v

mutual

def walkShape (f : Value → String → Except String Value) :
    Value → List Step → Value → Except String Value
  | .str s, p, root =>
    match f root s with
    | .error e => .error e
    | .ok r => .ok (modifyAt p r root)
  | .list xs, p, root => walkShapeList f xs 0 p root
  | .dict es, p, root => walkShapeDict f es p root
  | _, _, root => .ok root

def walkShapeList (f : Value → String → Except String Value) :
    List Value → Nat → List Step → Value → Except String Value
  | [], _, _, root => .ok root
  | x :: rest, i, p, root =>
    match walkShape f x (p ++ [.idx i]) root with
    | .error e => .error e
    | .ok root2 => walkShapeList f rest (i + 1) p root2

def walkShapeDict (f : Value → String → Except String Value) :
    List (String × Value) → List Step → Value → Except String Value
  | [], _, root => .ok root
  | (k, v) :: rest, p, root =>
    match walkShape f v (p ++ [.key k]) root with
    | .error e => .error e
    | .ok root2 => walkShapeDict f rest p root2

end

/-! ### Resolver wrappers (`AbstractInterpolationResolver`) -/

/-- Source `AbstractInterpolationResolver.resolve_interpolation`: skip
non-interpolations; strip whitespace from a full-token line; hand over to
the concrete injector. -/
def resolveInterpolationStep (doResolve : String → Except String Value)
    (line : String) : Except String Value :=
  if ¬ is_interpolation line then .ok (.str line)
  else if is_full_interpolation line then doResolve (remove_white_spaces line)
  else doResolve line

/-- Source `InterpolationResolver.resolve_interpolations` (one self-document
pass): a fresh `FromDictInjector` caches the flattened leaves of the document
as it is when the pass starts, and every scalar is rewritten through
`FromDictInjector.resolve` followed by `FullBlobInjector.resolve` against the
live root. -/
def resolve_interpolations (data : Value) : Except String Value :=
  let leaves := parse_leaves "" data
  walkShape
    (fun root line =>
      resolveInterpolationStep
        (fun l =>
          match fromDictResolve leaves l with
          | .error e => .error e
          | .ok updated => fullBlobResolve updated root)
        line)
    data [] data

/-! ### Environment-variable injector (`inject_env.py`) -/

/-- Source `EnvVarInjector.is_env_interpolation`: the de-braced token must
look like `env(NAME)` with a non-blank name. -/
def is_env_interpolation (value : String) : Bool :=
  strStartsWith value "env(" && strEndsWith value ")" &&
    strTrim (strDropRight (strDrop value 4) 1) ≠ ""

/-- Scanner for the partial-interpolation branch of `inject_env_var`:
Python's `re.sub` over pattern `(two braces)env\([^)]+\)(two braces)`.
A match consumes up to the first closing parenthesis; a blank variable name
keeps the matched text verbatim; a missing variable substitutes the empty
string (`getenv(...) or ''`). -/
def envSubChars (env : String → Option String) (skip : Nat) :
    List Char → List Char
  | [] => []
  | c :: rest =>
    match skip with
    | n + 1 => envSubChars env n rest
    | 0 =>
      if ['{', '{', 'e', 'n', 'v', '('].isPrefixOf (c :: rest) then
        let after := (c :: rest).drop 6
        let name := after.takeWhile (· ≠ ')')
        let rest2 := after.dropWhile (· ≠ ')')
        if name ≠ [] ∧ rest2.take 3 = [')', '}', '}'] then
          let replaced :=
            if strTrim ⟨name⟩ ≠ "" then ((env ⟨name⟩).getD "").toList
            else (c :: rest).take (6 + name.length + 3)
          replaced ++ envSubChars env (6 + name.length + 3 - 1) rest
        else c :: envSubChars env 0 rest
      else c :: envSubChars env 0 rest

/-- Source `EnvVarInjector.inject_env_var`.  A full interpolation (by the
injector's own brace test) resolves `env(NAME)` to the variable's value, or
to Python `None` when unset; any other token is returned unchanged.  A
partial interpolation substitutes each embedded `env(...)` reference. -/
def inject_env_var (env : String → Option String) (line : String) : Value :=
  if strStartsWith line "\x7b\x7b" && strEndsWith line "\x7d\x7d" then
    let updated := strDropRight (strDrop line 2) 2
    if ¬ is_env_interpolation updated then .str line
    else
      match env (strDropRight (strDrop updated 4) 1) with
      | some v => .str v
      | none => .null
  else
    .str ⟨envSubChars env 0 line.toList⟩

/-- Source `EnvVarResolver.resolve_env_vars` (one environment pass). -/
def resolve_env_vars (env : String → Option String) (data : Value) : Except String Value :=
  loopAllItems (resolveInterpolationStep (fun l => .ok (inject_env_var env l))) data

/-- Source `SecretResolver.resolve_secrets` (one secret pass); the concrete
`SecretInjector` lives outside the resolver wrapper and is a parameter. -/
def resolve_secrets (inject : String → Except String Value) (data : Value) :
    Except String Value :=
  loopAllItems (resolveInterpolationStep inject) data

/-! ### Validator (`InterpolationValidator`) -/

/-- Source `InterpolationValidator.validate_value`: raise on any scalar that
still is a (non-escaped) interpolation. -/
def validate_value (value : String) : Except String Value :=
  if is_interpolation value then
    .error ("Interpolation could not be resolved " ++ value ++
      " and strict validation was enabled.")
  else .ok (.str value)

/-- Source `InterpolationValidator.check_all_interpolations_resolved`. -/
def check_all_interpolations_resolved (data : Value) : Except String Value :=
  loopAllItems validate_value data

/-! ### Escape cleanup (`EscapingResolver`, `FullBlobInjector.clean`) -/

/-- Source `FullBlobInjector.get_value_from_escaping`: strip the three-byte
delimiters from both ends. -/
def get_value_from_escaping (line : String) : String :=
  strDropRight (strDrop line 3) 3

/-- Index of the first occurrence of `pat` (Python `str.find`). -/
def findSubIdx (pat : List Char) : List Char → Option Nat
  | [] => if pat.isEmpty then some 0 else none
  | c :: rest =>
    if pat.isPrefixOf (c :: rest) then some 0
    else (findSubIdx pat rest).map (· + 1)

/-- Python slice `l[3:-3]` on a character list (empty when shorter than 6). -/
def sliceInner3 (l : List Char) : List Char :=
  (l.drop 3).take (l.length - 6)

/-- Partially escaped branch of `FullBlobInjector.clean`: cut the string at
the first occurrences of the opening and closing escape delimiters, unwrap
the slice between them, and keep the surrounding text.  (The `find` calls
cannot miss: the caller established that an escaped pattern occurs.) -/
def cleanEscapedPart (line : String) : String :=
  let cs := line.toList
  let i := (findSubIdx ['{', '{', '`'] cs).getD 0
  let j := (findSubIdx ['`', '}', '}'] cs).getD 0
  let pre := cs.take i
  let esc := (cs.take (j + 3)).drop i
  let suf := cs.drop (j + 3)
  ⟨pre ++ sliceInner3 esc ++ suf⟩

/-- Source `FullBlobInjector.clean`: a fully escaped scalar is unwrapped; a
partially escaped scalar keeps its surrounding text; everything else (and
any non-string) passes through. -/
def fullBlobClean (line : Value) : Value :=
  match line with
  | .str s =>
    if is_fully_escaped_interpolation s then .str (get_value_from_escaping s)
    else if is_escaped_interpolation s then .str (cleanEscapedPart s)
    else .str s
  | v => v

/-- Source `DictEscapingResolver.do_clean_escapes` guarded by
`AbstractEscapingResolver.clean_escape`: only escaped scalars are touched,
and each is first pushed through `FromDictInjector.resolve` against the
flattened leaves, then through `FullBlobInjector.clean`. -/
def cleanEscapeStep (leaves : List (String × Value)) (line : String) :
    Except String Value :=
  if ¬ is_escaped_interpolation line then .ok (.str line)
  else
    match fromDictResolve leaves line with
    | .error e => .error e
    | .ok updated => .ok (fullBlobClean updated)

/-- Source `EscapingResolver.resolve_escaping` (the final cleanup pass);
the injector's leaf cache is built from the document as the pass starts. -/
def resolve_escaping (data : Value) : Except String Value :=
  let leaves := parse_leaves "" data
  loopAllItems (cleanEscapeStep leaves) data

/-! ### Merge engine (`config_generator.py`) -/

/-- Python `repr` of the value's type, as interpolated into merge errors. -/
def pyTypeName (v : Value) : String :=
  "<class \x27" ++ pyShortTypeName v ++ "\x27>"

/-- The source's type-conflict test
`not isinstance(values[key], type(value)) and not isinstance(value, type(values[key]))`,
negated: the two values are compatible when they share a Python class or one
is a `bool` and the other an `int` (Python's `bool` subclasses `int`). -/
def pyCompatible (a b : Value) : Bool :=
  pyShortTypeName a = pyShortTypeName b ||
    (match a, b with
     | .bool _, .int _ => true
     | .int _, .bool _ => true
     | _, _ => false)

/-- Python `isinstance(value, primitive_types)` with
`primitive_types = (str, int, float, bool)`; `None`, lists and mappings are
not primitive. -/
def isPrimitiveValue : Value → Bool
  | .str _ => true
  | .int _ => true
  | .float _ => true
  | .bool _ => true
  | _ => false

/-- Source `ConfigGenerator.merge_value`: composite values are handed to the
configured deepmerge `Merger` (abstracted as `mc`); anything else raises
`TypeError`.  (The source also accepts Python sets, which YAML documents in
this model never contain.) -/
def merge_value (mc : Value → Value → Except String Value)
    (reference new_value : Value) : Except String Value :=
  match new_value with
  | .list _ => mc reference new_value
  | .dict _ => mc reference new_value
  | _ =>
    .error ("TypeError: Cannot handle merge_value of type <class \x27" ++
      pyShortTypeName new_value ++ "\x27>")

/-- Source `ConfigGenerator.merge_yamls`: fold the incoming fragment's
entries into the accumulator; raise on a type conflict; hand composite
values to `merge_value`; write primitives (and fresh keys) directly. -/
def merge_yamls (mc : Value → Value → Except String Value) :
    List (String × Value) → List (String × Value) →
    Except String (List (String × Value))
  | values, [] => .ok values
  | values, (key, value) :: rest =>
    match alookup values key with
    | some old =>
      if ¬ pyCompatible old value then
        .error ("Failed to merge key \x27" ++ key ++
          "\x27, because of mismatch in type: " ++ pyTypeName old ++ " vs " ++
          pyTypeName value)
      else if ¬ isPrimitiveValue value then
        match merge_value mc old value with
        | .error e => .error e
        | .ok nv => merge_yamls mc (aset values key nv) rest
      else merge_yamls mc (aset values key value) rest
    | none => merge_yamls mc (values ++ [(key, value)]) rest

/-- Source `replace_parent_working_directory`. -/
def replace_parent_working_directory (value cwd : String) : String :=
  if strContains value "\x7b\x7bcwd\x7d\x7d" then
    strReplace value "\x7b\x7bcwd\x7d\x7d" cwd
  else value

/-- Source `ConfigGenerator.resolve_simple_interpolations`, applied to the
accumulated mapping after each file is merged; `dir` is the file's
directory joined to the working directory. -/
def resolve_simple_interpolations (dir : String)
    (es : List (String × Value)) : List (String × Value) :=
  mapDocStringsDict (fun s => .str (replace_parent_working_directory s dir)) es

/-- The nested per-level/per-file loop of `process_hierarchy`, flattened
over the concatenated file list: merge each file's parsed content, then run
the `cwd` substitution with that file's directory. -/
def processFiles (mc : Value → Value → Except String Value)
    (contents : String → List (String × Value)) (dirOf : String → String) :
    List String → List (String × Value) →
    Except String (List (String × Value))
  | [], values => .ok values
  | f :: rest, values =>
    match merge_yamls mc values (contents f) with
    | .error e => .error e
    | .ok m => processFiles mc contents dirOf rest (resolve_simple_interpolations (dirOf f) m)

/-- Source `ConfigGenerator.process_hierarchy`: fail when the target path is
missing; merge every file of every hierarchy level in order; fail when the
whole hierarchy contributed zero files. -/
def process_hierarchy (mc : Value → Value → Except String Value)
    (pathExists : Bool) (full_target_path : String)
    (hierarchy : List (List String))
    (contents : String → List (String × Value)) (dirOf : String → String) :
    Except String (List (String × Value)) :=
  if ¬ pathExists then
    .error ("FileNotFoundError: Path does not exist: " ++ full_target_path)
  else
    let files := hierarchy.flatten
    match processFiles mc contents dirOf files [] with
    | .error e => .error e
    | .ok m =>
      if files.length = 0 then
        .error "No YAML files found to process in the hierarchy"
      else .ok m

/-- Source `ConfigGenerator.get_yaml_from_path`: keep the `.yaml` files of
the directory listing, join them to the directory path, and sort.  (For the
relative paths himl builds, `os.path.join` is plain concatenation with a
separator.) -/
def get_yaml_from_path (path : String) (listing : List String) : List String :=
  List.insertionSort (fun a b => fileLe a b = true)
    ((listing.filter (fun f => strEndsWith f ".yaml")).map
      (fun f => path ++ "/" ++ f))

/-! ### ConfigProcessor.process -/

/-- The keyword arguments of `ConfigProcessor.process` that shape the data
path modelled here (defaults: everything empty / false). -/
structure ProcessArgs where
  exclude_keys : List String
  filters : List String
  skip_interpolations : Bool
  skip_interpolation_validation : Bool
  skip_secrets : Bool

/-- Source `ConfigProcessor._should_skip_interpolation_validation`. -/
def should_skip_interpolation_validation (a : ProcessArgs) : Bool :=
  a.skip_interpolation_validation || a.skip_interpolations || a.skip_secrets

/-- Source `ConfigGenerator.exclude_keys`: drop the named top-level keys
when present. -/
def excludeKeysOp (keys : List String) : Value → Value
  | .dict es => .dict (es.filter (fun kv => ¬ keys.contains kv.1))
  | v => v

/-- Source `ConfigGenerator.filter_data`: keep the named top-level keys, in
allow-list order, silently ignoring missing ones. -/
def filterDataOp (keys : List String) : Value → Value
  | .dict es => .dict (keys.filterMap (fun k => (alookup es k).map (fun v => (k, v))))
  | v => v

/-- Source `ConfigGenerator.add_dynamic_data`: only when a `remote_states`
key is present is the externally fetched remote data (a parameter here)
merged into the document; deepmerge mutates the base in place, modelled by
replacing the document with the merge result. -/
def add_dynamic_data (mc : Value → Value → Except String Value)
    (remote : Value) (data : Value) : Except String Value :=
  match data with
  | .dict es => if hasKey es "remote_states" then merge_value mc data remote else .ok data
  | _ => .ok data

/-- Source `ConfigProcessor.process`, for the document produced by
`process_hierarchy` and the default enclosing-key/output options: exclusions,
the fixed interpolation pass sequence (self-document twice, dynamic data,
environment, secrets, each followed by a self-document re-pass), filtering,
optional validation, and the final escape cleanup.  The deepmerge `Merger`,
the OS environment and the `SecretInjector` are abstracted as parameters. -/
def processInterpolationPasses (mc : Value → Value → Except String Value)
    (env : String → Option String) (inject : String → Except String Value)
    (remote : Value) (a : ProcessArgs) (data : Value) : Except String Value :=
  if a.skip_interpolations then .ok data
  else
    (resolve_interpolations data).bind fun data =>
    (resolve_interpolations data).bind fun data =>
    (add_dynamic_data mc remote data).bind fun data =>
    (resolve_interpolations data).bind fun data =>
    (resolve_env_vars env data).bind fun data =>
    (resolve_interpolations data).bind fun data =>
    if a.skip_secrets then .ok data
    else (resolve_secrets inject data).bind fun data => resolve_interpolations data

def process (mc : Value → Value → Except String Value)
    (env : String → Option String) (inject : String → Except String Value)
    (remote : Value) (a : ProcessArgs) (data : Value) : Except String Value :=
  let data0 := if a.exclude_keys.isEmpty then data else excludeKeysOp a.exclude_keys data
  (processInterpolationPasses mc env inject remote a data0).bind fun data1 =>
  let data2 := if a.filters.isEmpty then data1 else filterDataOp a.filters data1
  (if should_skip_interpolation_validation a then .ok data2
   else check_all_interpolations_resolved data2).bind fun _ =>
  resolve_escaping data2

/-! ### Observation helpers (not part of the source) -/

/-! Every string scalar of a document, in traversal order. -/
mutual

def docStrings : Value → List String
  | .str s => [s]
  | .list xs => docStringsList xs
  | .dict es => docStringsDict es
  | _ => []

def docStringsList : List Value → List String
  | [] => []
  | x :: rest => docStrings x ++ docStringsList rest

def docStringsDict : List (String × Value) → List String
  | [] => []
  | (_, v) :: rest => docStrings v ++ docStringsDict rest

end

/-- Modelled from the spec: a stand-in for the external deepmerge `Merger`
(the deepmerge library is not part of this repository's sources).  The
spec's `override` strategy — replace wholesale — is used; none of the
concrete runs in this file ever reaches composite merging, and every theorem
about merging quantifies over the merger. -/
def overrideMerger : Value → Value → Except String Value :=
  fun _ b => .ok b

/-! ### Shared concrete fixtures for the claim instances -/

/-- An environment with no variables set. -/
def noEnvF : String → Option String := fun _ => none

/-- A secret injector that leaves every token untouched (the concrete
`SecretInjector` backend is external to the resolver wrapper; the claims
quantify over it, and the concrete runs instantiate it neutrally). -/
def idSecretF : String → Except String Value := fun l => .ok (.str l)

/-- All `ConfigProcessor.process` flags at their defaults. -/
def defaultArgs : ProcessArgs := ⟨[], [], false, false, false⟩

/-- The spec's unresolved-detection document. -/
def missdoc : Value := .dict [("a", .str "\x7b\x7bmissing.key\x7d\x7d")]

/-- The validator's error message for an offending scalar. -/
def unresolvedMsg (s : String) : String :=
  "Interpolation could not be resolved " ++ s ++ " and strict validation was enabled."

/-! ### Validator behaviour over a whole document -/

mutual

theorem checkSpecV (v : Value) :
    (loopAllItems validate_value v = .ok v ∧
      ∀ s ∈ docStrings v, is_interpolation s = false) ∨
    (∃ s, s ∈ docStrings v ∧ is_interpolation s = true ∧
      loopAllItems validate_value v = .error (unresolvedMsg s)) := by
  cases v with
  | str s =>
    by_cases h : is_interpolation s = true
    · exact Or.inr ⟨s, by simp [docStrings], h,
        by simp [loopAllItems, validate_value, h, unresolvedMsg]⟩
    · exact Or.inl ⟨by simp [loopAllItems, validate_value,
        Bool.not_eq_true _ ▸ h], by simp [docStrings]; simpa using h⟩
  | list xs =>
    cases checkSpecList xs with
    | inl h =>
      exact Or.inl ⟨by simp [loopAllItems, h.1], by simpa [docStrings] using h.2⟩
    | inr h =>
      obtain ⟨s, hm, hi, he⟩ := h
      exact Or.inr ⟨s, by simpa [docStrings] using hm, hi,
        by simp [loopAllItems, he]⟩
  | dict es =>
    cases checkSpecDict es with
    | inl h =>
      exact Or.inl ⟨by simp [loopAllItems, h.1], by simpa [docStrings] using h.2⟩
    | inr h =>
      obtain ⟨s, hm, hi, he⟩ := h
      exact Or.inr ⟨s, by simpa [docStrings] using hm, hi,
        by simp [loopAllItems, he]⟩
  | int n => exact Or.inl ⟨by simp [loopAllItems], by simp [docStrings]⟩
  | bool b => exact Or.inl ⟨by simp [loopAllItems], by simp [docStrings]⟩
  | float x => exact Or.inl ⟨by simp [loopAllItems], by simp [docStrings]⟩
  | null => exact Or.inl ⟨by simp [loopAllItems], by simp [docStrings]⟩

theorem checkSpecList (xs : List Value) :
    (loopItemsList validate_value xs = .ok xs ∧
      ∀ s ∈ docStringsList xs, is_interpolation s = false) ∨
    (∃ s, s ∈ docStringsList xs ∧ is_interpolation s = true ∧
      loopItemsList validate_value xs = .error (unresolvedMsg s)) := by
  cases xs with
  | nil => exact Or.inl ⟨by simp [loopItemsList], by simp [docStringsList]⟩
  | cons x rest =>
    cases checkSpecV x with
    | inl hx =>
      cases checkSpecList rest with
      | inl hr =>
        refine Or.inl ⟨by simp [loopItemsList, hx.1, hr.1], ?_⟩
        intro s hs
        rcases List.mem_append.1 (by simpa [docStringsList] using hs) with h | h
        · exact hx.2 s h
        · exact hr.2 s h
      | inr hr =>
        obtain ⟨s, hm, hi, he⟩ := hr
        exact Or.inr ⟨s, by simp [docStringsList, List.mem_append, hm], hi,
          by simp [loopItemsList, hx.1, he]⟩
    | inr hx =>
      obtain ⟨s, hm, hi, he⟩ := hx
      exact Or.inr ⟨s, by simp [docStringsList, List.mem_append, hm], hi,
        by simp [loopItemsList, he]⟩

theorem checkSpecDict (es : List (String × Value)) :
    (loopItemsDict validate_value es = .ok es ∧
      ∀ s ∈ docStringsDict es, is_interpolation s = false) ∨
    (∃ s, s ∈ docStringsDict es ∧ is_interpolation s = true ∧
      loopItemsDict validate_value es = .error (unresolvedMsg s)) := by
  cases es with
  | nil => exact Or.inl ⟨by simp [loopItemsDict], by simp [docStringsDict]⟩
  | cons kv rest =>
    obtain ⟨k, v⟩ := kv
    cases checkSpecV v with
    | inl hx =>
      cases checkSpecDict rest with
      | inl hr =>
        refine Or.inl ⟨by simp [loopItemsDict, hx.1, hr.1], ?_⟩
        intro s hs
        rcases List.mem_append.1 (by simpa [docStringsDict] using hs) with h | h
        · exact hx.2 s h
        · exact hr.2 s h
      | inr hr =>
        obtain ⟨s, hm, hi, he⟩ := hr
        exact Or.inr ⟨s, by simp [docStringsDict, List.mem_append, hm], hi,
          by simp [loopItemsDict, hx.1, he]⟩
    | inr hx =>
      obtain ⟨s, hm, hi, he⟩ := hx
      exact Or.inr ⟨s, by simp [docStringsDict, List.mem_append, hm], hi,
        by simp [loopItemsDict, he]⟩

end

/-- The pattern is found when the scan starts right at an occurrence. -/
theorem listContainsSub_here (pat ys : List Char) :
    listContainsSub pat (pat ++ ys) = true := by
  cases hp : pat ++ ys with
  | nil =>
    have h0 : pat = [] := by
      cases pat with
      | nil => rfl
      | cons a l => simp at hp
    simp [h0, listContainsSub]
  | cons c t =>
    have h1 : pat.isPrefixOf (c :: t) = true := by
      rw [← hp, List.isPrefixOf_iff_prefix]
      exact List.prefix_append pat ys
    simp [listContainsSub, h1]

/-- Containment is stable under extending the scanned list on the left. -/
theorem listContainsSub_cons (pat : List Char) (c : Char) (rest : List Char)
    (h : listContainsSub pat rest = true) :
    listContainsSub pat (c :: rest) = true := by
  cases rest with
  | nil =>
    have h0 : pat = [] := by
      cases pat with
      | nil => rfl
      | cons a l => simp [listContainsSub] at h
    simp [h0, listContainsSub]
  | cons d t =>
    show (pat.isPrefixOf (c :: d :: t) || listContainsSub pat (d :: t)) = true
    rw [h]
    simp

/-- Substring containment holds whenever the pattern literally occurs. -/
theorem listContainsSub_append (pat xs ys : List Char) :
    listContainsSub pat (xs ++ pat ++ ys) = true := by
  induction xs with
  | nil => simpa using listContainsSub_here pat ys
  | cons c rest ih => simpa using listContainsSub_cons pat c _ (by simpa using ih)

/-- Message strings built by the validator contain the offending scalar. -/
theorem strContains_unresolvedMsg (s : String) :
    strContains (unresolvedMsg s) s = true := by
  have h : (unresolvedMsg s).data =
      "Interpolation could not be resolved ".data ++ s.data ++
        " and strict validation was enabled.".data := by
    simp [unresolvedMsg, String.data_append]
  have h2 := listContainsSub_append s.data
    "Interpolation could not be resolved ".data
    " and strict validation was enabled.".data
  simp only [strContains, String.toList]
  rw [h]
  simpa using h2

/-- C8: the validator's `check` raises an error carrying the offending
scalar text exactly when some string scalar of the document is still a
non-escaped interpolation; a successful check returns the document
unchanged (no mutation); and with validation skipped the unresolved field
survives the whole pipeline literally while the validating run raises. -/
theorem validator_raises_iff_unresolved (d : Value) :
    ((∃ e, check_all_interpolations_resolved d = .error e) ↔
      ∃ s, s ∈ docStrings d ∧ is_interpolation s = true) ∧
    (∀ d2, check_all_interpolations_resolved d = .ok d2 → d2 = d) ∧
    (∀ e, check_all_interpolations_resolved d = .error e →
      ∃ s, s ∈ docStrings d ∧ is_interpolation s = true ∧
        e = unresolvedMsg s ∧ strContains e s = true) ∧
    process overrideMerger noEnvF idSecretF .null ⟨[], [], false, true, false⟩
      missdoc = .ok missdoc ∧
    process overrideMerger noEnvF idSecretF .null defaultArgs missdoc =
      .error (unresolvedMsg "\x7b\x7bmissing.key\x7d\x7d") := by
  refine ⟨?_, ?_, ?_, rfl, rfl⟩
  · constructor
    · rintro ⟨e, he⟩
      cases checkSpecV d with
      | inl h =>
        rw [check_all_interpolations_resolved, h.1] at he
        exact absurd he (by simp)
      | inr h =>
        obtain ⟨s, hm, hi, _⟩ := h
        exact ⟨s, hm, hi⟩
    · rintro ⟨s, hm, hi⟩
      cases checkSpecV d with
      | inl h => exact absurd (h.2 s hm) (by simp [hi])
      | inr h =>
        obtain ⟨s2, _, _, he⟩ := h
        exact ⟨unresolvedMsg s2, by rw [check_all_interpolations_resolved, he]⟩
  · intro d2 h2
    cases checkSpecV d with
    | inl h =>
      rw [check_all_interpolations_resolved, h.1] at h2
      exact (Except.ok.injEq _ _ ▸ h2).symm
    | inr h =>
      obtain ⟨s, _, _, he⟩ := h
      rw [check_all_interpolations_resolved, he] at h2
      exact absurd h2 (by simp)
  · intro e he
    cases checkSpecV d with
    | inl h =>
      rw [check_all_interpolations_resolved, h.1] at he
      exact absurd he (by simp)
    | inr h =>
      obtain ⟨s, hm, hi, h2⟩ := h
      rw [check_all_interpolations_resolved, h2] at he
      have : e = unresolvedMsg s := by
        have := he.symm
        simpa using this
      exact ⟨s, hm, hi, this, this ▸ strContains_unresolvedMsg s⟩

/-- Witness for C8 at the spec's concrete document. -/
theorem validator_raises_iff_unresolved_witness :
    ∃ e, check_all_interpolations_resolved missdoc = .error e :=
  (validator_raises_iff_unresolved missdoc).1.mpr
    ⟨"\x7b\x7bmissing.key\x7d\x7d", by decide, by decide⟩

/-! ### C9 fixtures -/

/-- Document with a live reference next to an escaped one inside `t`, and
the same live reference alone inside `u`. -/
def c9doc : Value := .dict [("a", .dict [("b", .str "foo")]),
  ("u", .str "\x7b\x7ba.b\x7d\x7d x"),
  ("t", .str "\x7b\x7ba.b\x7d\x7d x \x7b\x7b`l`\x7d\x7d")]

/-- What one self-document pass makes of `c9doc`: `u` resolves, `t` is
untouched because of the escaped sequence it contains. -/
def c9resolved : Value := .dict [("a", .dict [("b", .str "foo")]),
  ("u", .str "foo x"),
  ("t", .str "\x7b\x7ba.b\x7d\x7d x \x7b\x7b`l`\x7d\x7d")]

/-- C9: any scalar containing an escaped sequence is classified as
not-an-interpolation as a whole, so every resolver wrapper returns it
unchanged (no other live token in it is substituted) and the validator
accepts it; concretely, `t` keeps its live reference while the identical
reference in `u` resolves, and validation still passes. -/
theorem escaped_sequence_shields_whole_scalar :
    (∀ s, is_escaped_interpolation s = true →
      is_interpolation s = false ∧
      (∀ doResolve : String → Except String Value,
        resolveInterpolationStep doResolve s = .ok (.str s)) ∧
      validate_value s = .ok (.str s)) ∧
    resolve_interpolations c9doc = .ok c9resolved ∧
    check_all_interpolations_resolved c9resolved = .ok c9resolved := by
  refine ⟨?_, rfl, rfl⟩
  intro s h
  have hni : is_interpolation s = false := by
    simp [is_interpolation, is_escaped_interpolation] at h ⊢
    simp [h]
  exact ⟨hni, fun doResolve => by simp [resolveInterpolationStep, hni],
    by simp [validate_value, hni]⟩

/-- Witness for C9 at the scalar mixing a live and an escaped token. -/
theorem escaped_sequence_shields_whole_scalar_witness :
    is_interpolation "\x7b\x7ba.b\x7d\x7d x \x7b\x7b`l`\x7d\x7d" = false ∧
    validate_value "\x7b\x7ba.b\x7d\x7d x \x7b\x7b`l`\x7d\x7d" =
      .ok (.str "\x7b\x7ba.b\x7d\x7d x \x7b\x7b`l`\x7d\x7d") :=
  ⟨(escaped_sequence_shields_whole_scalar.1 _ (by decide)).1,
    (escaped_sequence_shields_whole_scalar.1 _ (by decide)).2.2⟩

/-! ### Association-list lemmas for the merge engine -/

theorem alookup_aset_self (values : List (String × Value)) (key : String)
    (old nv : Value) (h : alookup values key = some old) :
    alookup (aset values key nv) key = some nv := by
  induction values with
  | nil => simp [alookup] at h
  | cons kv rest ih =>
    obtain ⟨k, v⟩ := kv
    by_cases hk : k = key
    · simp [alookup, aset, hk]
    · simp [alookup, aset, hk] at h ⊢
      exact ih h

theorem alookup_aset_ne (values : List (String × Value)) (k2 key : String)
    (nv : Value) (h : k2 ≠ key) :
    alookup (aset values k2 nv) key = alookup values key := by
  induction values with
  | nil => simp [aset]
  | cons kv rest ih =>
    obtain ⟨k, v⟩ := kv
    by_cases hk : k = k2
    · subst hk
      simp [alookup, aset, h, ih]
    · simp [alookup, aset, hk, ih]

theorem alookup_append_of_some (values l : List (String × Value)) (key : String)
    (w : Value) (h : alookup values key = some w) :
    alookup (values ++ l) key = some w := by
  induction values with
  | nil => simp [alookup] at h
  | cons kv rest ih =>
    obtain ⟨k, v⟩ := kv
    by_cases hk : k = key
    · simp [alookup, hk] at h ⊢
      exact h
    · simp [alookup, hk] at h ⊢
      exact ih h

theorem alookup_append_of_none (values l : List (String × Value)) (key : String)
    (h : alookup values key = none) :
    alookup (values ++ l) key = alookup l key := by
  induction values with
  | nil => simp
  | cons kv rest ih =>
    obtain ⟨k, v⟩ := kv
    by_cases hk : k = key
    · simp [alookup, hk] at h
    · simp [alookup, hk] at h ⊢
      exact ih h

/-- A fragment that never mentions `key` leaves the accumulator's entry for
`key` unchanged (whenever the merge succeeds). -/
theorem merge_yamls_lookup_preserved (mc : Value → Value → Except String Value)
    (content : List (String × Value)) (key : String)
    (hk : ∀ p ∈ content, p.1 ≠ key) :
    ∀ values m, merge_yamls mc values content = .ok m →
      alookup m key = alookup values key := by
  induction content with
  | nil =>
    intro values m hm
    simp [merge_yamls] at hm
    simp [hm]
  | cons kv rest ih =>
    obtain ⟨k2, v2⟩ := kv
    intro values m hm
    have hk2 : k2 ≠ key := hk (k2, v2) (List.mem_cons_self _ _)
    have hkr : ∀ p ∈ rest, p.1 ≠ key := fun p hp => hk p (List.mem_cons_of_mem _ hp)
    simp only [merge_yamls] at hm
    split at hm
    · -- key already present in the accumulator
      split at hm
      · exact absurd hm (by simp)
      · split at hm
        · -- composite value: routed through merge_value
          split at hm
          · exact absurd hm (by simp)
          · rw [ih hkr _ _ hm, alookup_aset_ne _ _ _ _ hk2]
        · -- primitive value: direct overwrite
          rw [ih hkr _ _ hm, alookup_aset_ne _ _ _ _ hk2]
    · -- fresh key: appended at the end
      rw [ih hkr _ _ hm]
      cases hvk : alookup values key with
      | some w => rw [alookup_append_of_some _ _ _ _ hvk]
      | none =>
        rw [alookup_append_of_none _ _ _ hvk]
        simp [alookup, hk2]

/-- Substring containment from an explicit three-part decomposition. -/
theorem strContains_parts (s mid x y : String)
    (h : s.data = x.data ++ mid.data ++ y.data) : strContains s mid = true := by
  have h2 := listContainsSub_append mid.data x.data y.data
  simp only [strContains, String.toList]
  rw [h]
  simpa using h2

/-- C2 counterexample: the claim includes `null` among the primitives that
"always override", but a null incoming value is not a Python primitive and
is routed into `merge_value`, which raises `TypeError` instead of letting
the fragment win. -/
theorem merge_null_counterexample :
    merge_yamls overrideMerger [("k", Value.null)] [("k", Value.null)] =
      .error "TypeError: Cannot handle merge_value of type <class \x27NoneType\x27>" := rfl

/-- C2 (amended): for every key carried by the incoming fragment with a
str/int/float/bool value, whenever the merge succeeds the merged entry is
the fragment's value — independent of the configured merger.  (As the
counterexample shows, null values raise a `TypeError` instead, and
incompatible primitive types raise the type-conflict error, so success is a
genuine hypothesis.) -/
theorem merge_incoming_primitive_wins (mc : Value → Value → Except String Value)
    (values content : List (String × Value)) (key : String) (v : Value)
    (hnodup : (content.map Prod.fst).Nodup)
    (hlook : alookup content key = some v)
    (hprim : isPrimitiveValue v = true) :
    ∀ m, merge_yamls mc values content = .ok m → alookup m key = some v := by
  induction content generalizing values with
  | nil => simp [alookup] at hlook
  | cons kv rest ih =>
    obtain ⟨k2, v2⟩ := kv
    intro m hm
    by_cases hk : k2 = key
    · subst hk
      have hv2 : v2 = v := by simpa [alookup] using hlook
      subst hv2
      have hrest : ∀ p ∈ rest, p.1 ≠ k2 := by
        intro p hp hpe
        have : k2 ∈ rest.map Prod.fst := List.mem_map.2 ⟨p, hp, hpe⟩
        exact (List.nodup_cons.1 (by simpa using hnodup)).1 this
      cases hold : alookup values k2 with
      | some old =>
        by_cases hcomp : pyCompatible old v2 = true
        · simp [merge_yamls, hold, hcomp, hprim] at hm
          rw [merge_yamls_lookup_preserved mc rest k2 hrest _ _ hm]
          exact alookup_aset_self values k2 old v2 hold
        · simp [merge_yamls, hold, hcomp] at hm
      | none =>
        simp [merge_yamls, hold] at hm
        rw [merge_yamls_lookup_preserved mc rest k2 hrest _ _ hm]
        rw [alookup_append_of_none _ _ _ hold]
        simp [alookup]
    · have hlook2 : alookup rest key = some v := by
        simpa [alookup, hk] using hlook
      have hnodup2 : (rest.map Prod.fst).Nodup :=
        (List.nodup_cons.1 (by simpa using hnodup)).2
      cases hold : alookup values k2 with
      | some old =>
        by_cases hcomp : pyCompatible old v2 = true
        · by_cases hprim2 : isPrimitiveValue v2 = true
          · simp [merge_yamls, hold, hcomp, hprim2] at hm
            exact ih _ hnodup2 hlook2 m hm
          · cases hmv : merge_value mc old v2 with
            | error e =>
              simp [merge_yamls, hold, hcomp, hprim2, hmv] at hm
            | ok nv =>
              simp [merge_yamls, hold, hcomp, hprim2, hmv] at hm
              exact ih _ hnodup2 hlook2 m hm
        · simp [merge_yamls, hold, hcomp] at hm
      | none =>
        simp [merge_yamls, hold] at hm
        exact ih _ hnodup2 hlook2 m hm

/-- Witness for C2 at a concrete two-fragment merge. -/
theorem merge_incoming_primitive_wins_witness :
    alookup [("k", Value.int 2)] "k" = some (Value.int 2) :=
  merge_incoming_primitive_wins overrideMerger [("k", Value.int 1)]
    [("k", Value.int 2)] "k" (Value.int 2) (by decide) rfl rfl
    [("k", Value.int 2)] rfl

/-- C3: merging a fragment whose value for a key is type-incompatible with
the accumulated value (neither an instance of the other's class) raises the
type-conflict error; the message names the key and both types, and no
merged accumulator is produced. -/
theorem merge_type_conflict_raises (mc : Value → Value → Except String Value)
    (values : List (String × Value)) (key : String) (old b : Value)
    (hold : alookup values key = some old)
    (hincomp : pyCompatible old b = false) :
    merge_yamls mc values [(key, b)] =
      .error ("Failed to merge key \x27" ++ key ++
        "\x27, because of mismatch in type: " ++ pyTypeName old ++ " vs " ++
        pyTypeName b) ∧
    strContains ("Failed to merge key \x27" ++ key ++
        "\x27, because of mismatch in type: " ++ pyTypeName old ++ " vs " ++
        pyTypeName b) key = true ∧
    strContains ("Failed to merge key \x27" ++ key ++
        "\x27, because of mismatch in type: " ++ pyTypeName old ++ " vs " ++
        pyTypeName b) (pyTypeName old) = true ∧
    strContains ("Failed to merge key \x27" ++ key ++
        "\x27, because of mismatch in type: " ++ pyTypeName old ++ " vs " ++
        pyTypeName b) (pyTypeName b) = true := by
  refine ⟨?_, ?_, ?_, ?_⟩
  · simp [merge_yamls, hold, hincomp]
  · exact strContains_parts _ key "Failed to merge key \x27"
      ("\x27, because of mismatch in type: " ++ pyTypeName old ++ " vs " ++ pyTypeName b)
      (by simp [String.data_append])
  · exact strContains_parts _ (pyTypeName old)
      ("Failed to merge key \x27" ++ key ++ "\x27, because of mismatch in type: ")
      (" vs " ++ pyTypeName b)
      (by simp [String.data_append])
  · exact strContains_parts _ (pyTypeName b)
      ("Failed to merge key \x27" ++ key ++ "\x27, because of mismatch in type: " ++
        pyTypeName old ++ " vs ") ""
      (by simp [String.data_append])

/-- Witness for C3: the spec's map-vs-list example. -/
theorem merge_type_conflict_raises_witness :
    merge_yamls overrideMerger [("x", Value.dict [("a", Value.int 1)])]
      [("x", Value.list [Value.int 1, Value.int 2])] =
      .error "Failed to merge key \x27x\x27, because of mismatch in type: <class \x27dict\x27> vs <class \x27list\x27>" :=
  (merge_type_conflict_raises overrideMerger [("x", Value.dict [("a", Value.int 1)])]
    "x" (Value.dict [("a", Value.int 1)]) (Value.list [Value.int 1, Value.int 2])
    rfl rfl).1

/-! ### C5: full-blob resolution -/

/-- C5 counterexample: with document `a = 5`, the full token for path `a.b`
has a missing segment (`b` is not reachable, `a` is not a map), yet
`FullBlobInjector.resolve` raises Python's `TypeError` instead of leaving
the token unchanged as the claim states. -/
theorem fullblob_nonmap_walk_counterexample :
    fullBlobResolve (.str "\x7b\x7ba.b\x7d\x7d") (.dict [("a", Value.int 5)]) =
      .error "TypeError: argument of type \x27int\x27 is not iterable" := rfl

/-- A dotted-path lookup whose first segment is absent from the map yields
`None`. -/
theorem get_inner_value_missing_key (key : String) (ks : List String)
    (es : List (String × Value)) (h : alookup es key = none) :
    get_inner_value (key :: ks) (.dict es) = .ok none := by
  simp [get_inner_value, h]

/-- C5 (amended): full-blob resolution applies only to a scalar that is
exactly one token, walking the live document through maps; the token is
kept when the walk yields no value (a segment absent from a map, or a
document `None`), and when the value found is itself still an unresolved
interpolation; but when the walk looks a segment up inside a non-container
value (for example an int), the code raises a `TypeError` instead of
leaving the token. -/
theorem fullblob_resolution_behaviour :
    (∀ s data, is_full_interpolation s = false →
      fullBlobResolve (.str s) data = .ok (.str s)) ∧
    (∀ s data, get_inner_value (get_keys_from_interpolation s) data = .ok none →
      fullBlobResolve (.str s) data = .ok (.str s)) ∧
    (∀ s data, get_inner_value (get_keys_from_interpolation s) data =
        .ok (some .null) →
      fullBlobResolve (.str s) data = .ok (.str s)) ∧
    (∀ s data v, get_inner_value (get_keys_from_interpolation s) data =
        .ok (some v) → isInterpolationValue v = true →
      fullBlobResolve (.str s) data = .ok (.str s)) ∧
    (∀ key ks es, alookup es key = none →
      ∀ s, get_keys_from_interpolation s = key :: ks →
        fullBlobResolve (.str s) (.dict es) = .ok (.str s)) ∧
    (∀ key ks (n : Int), get_inner_value (key :: ks) (.int n) =
      .error "TypeError: argument of type \x27int\x27 is not iterable") := by
  refine ⟨?_, ?_, ?_, ?_, ?_, ?_⟩
  · intro s data h
    simp [fullBlobResolve, h]
  · intro s data h
    by_cases hf : is_full_interpolation s = true
    · simp [fullBlobResolve, hf, h, isValidBlobResult]
    · simp [fullBlobResolve, Bool.not_eq_true _ ▸ hf]
  · intro s data h
    by_cases hf : is_full_interpolation s = true
    · simp [fullBlobResolve, hf, h, isValidBlobResult]
    · simp [fullBlobResolve, Bool.not_eq_true _ ▸ hf]
  · intro s data v h hv
    by_cases hf : is_full_interpolation s = true
    · have hvalid : isValidBlobResult (some v) = false := by
        cases v <;> simp [isValidBlobResult, isInterpolationValue] at hv ⊢
        exact hv
      simp [fullBlobResolve, hf, h, hvalid]
    · simp [fullBlobResolve, Bool.not_eq_true _ ▸ hf]
  · intro key ks es hmiss s hkeys
    by_cases hf : is_full_interpolation s = true
    · have h := get_inner_value_missing_key key ks es hmiss
      simp [fullBlobResolve, hf, hkeys, h, isValidBlobResult]
    · simp [fullBlobResolve, Bool.not_eq_true _ ▸ hf]
  · intro key ks n
    simp [get_inner_value, pyShortTypeName]

/-- Witness for C5: a partial token is untouched; a token whose first
segment misses the map is kept; a token resolving to a still-unresolved
interpolation is kept. -/
theorem fullblob_resolution_behaviour_witness :
    fullBlobResolve (.str "pre \x7b\x7ba.b\x7d\x7d") (.dict []) =
      .ok (.str "pre \x7b\x7ba.b\x7d\x7d") ∧
    fullBlobResolve (.str "\x7b\x7bmissing.key\x7d\x7d") (.dict [("a", Value.int 1)]) =
      .ok (.str "\x7b\x7bmissing.key\x7d\x7d") ∧
    fullBlobResolve (.str "\x7b\x7bref.val\x7d\x7d")
      (.dict [("ref", .dict [("val", .str "\x7b\x7bother.one\x7d\x7d")])]) =
      .ok (.str "\x7b\x7bref.val\x7d\x7d") :=
  ⟨fullblob_resolution_behaviour.1 "pre \x7b\x7ba.b\x7d\x7d" (.dict []) (by decide),
   fullblob_resolution_behaviour.2.2.2.2.1 "missing" ["key"] [("a", Value.int 1)]
     rfl "\x7b\x7bmissing.key\x7d\x7d" rfl,
   fullblob_resolution_behaviour.2.2.2.1 "\x7b\x7bref.val\x7d\x7d"
     (.dict [("ref", .dict [("val", .str "\x7b\x7bother.one\x7d\x7d")])])
     (.str "\x7b\x7bother.one\x7d\x7d") rfl (by decide)⟩

/-! ### C4: escaping -/

/-- Document whose escaped scalar contains text matching a leaf placeholder. -/
def c4doc : Value := .dict [("a", .str "foo"),
  ("t", .str "\x7b\x7b`\x7b\x7ba\x7d\x7d`\x7d\x7d")]

/-- The one-key document of the spec's escaping example. -/
def escdoc : Value := .dict [("v", .str "\x7b\x7b`x`\x7d\x7d")]

/-- C4 counterexample: the cleanup pass does not strip exactly the escape
delimiters — it first runs the self-document injector over the escaped
scalar.  With `a = "foo"`, the escaped value `(escape open){{a}}(escape
close)` emerges as `"foo"`, not as the delimiter-stripped literal
`"{{a}}"`. -/
theorem escape_cleanup_substitutes_counterexample :
    resolve_escaping c4doc = .ok (.dict [("a", .str "foo"), ("t", .str "foo")]) ∧
    "foo" ≠ "\x7b\x7ba\x7d\x7d" := ⟨rfl, by decide⟩

/-- C4 (amended): an escaped scalar is never treated as live by any
substitution pass (the wrapper shared by the self-document, environment and
secret passes returns it unchanged); the final cleanup pass applies the
self-document injector and then strips the delimiters, so a fully escaped
scalar whose inner text matches no document placeholder — such as the
spec's `(escape open)x(escape close)` — emerges from the full pipeline as
the literal inner text. -/
theorem escaping_roundtrip_behaviour :
    (∀ s, is_escaped_interpolation s = true →
      ∀ doResolve : String → Except String Value,
        resolveInterpolationStep doResolve s = .ok (.str s)) ∧
    (∀ s, is_fully_escaped_interpolation s = true →
      fullBlobClean (.str s) = .str (get_value_from_escaping s)) ∧
    process overrideMerger noEnvF idSecretF .null defaultArgs escdoc =
      .ok (.dict [("v", .str "x")]) := by
  refine ⟨?_, ?_, rfl⟩
  · intro s h doResolve
    have hni : is_interpolation s = false := by
      simp [is_interpolation, is_escaped_interpolation] at h ⊢
      simp [h]
    simp [resolveInterpolationStep, hni]
  · intro s h
    simp [fullBlobClean, h]

/-- Witness for C4 at the spec's escaped scalar. -/
theorem escaping_roundtrip_behaviour_witness :
    resolveInterpolationStep (fun l => .ok (.str (l ++ "!")))
      "\x7b\x7b`x`\x7d\x7d" = .ok (.str "\x7b\x7b`x`\x7d\x7d") ∧
    fullBlobClean (.str "\x7b\x7b`x`\x7d\x7d") = .str "x" :=
  ⟨escaping_roundtrip_behaviour.1 "\x7b\x7b`x`\x7d\x7d" (by decide) _,
   escaping_roundtrip_behaviour.2.1 "\x7b\x7b`x`\x7d\x7d" (by decide)⟩

/-! ### C1: full vs. embedded interpolation -/

/-- The spec's full-vs-embedded document. -/
def c1doc : Value := .dict [("a", .dict [("b", .int 5)]),
  ("c", .str "\x7b\x7ba.b\x7d\x7d"), ("d", .str "val-\x7b\x7ba.b\x7d\x7d")]

/-- C1 evaluated at the failing input: the full-value token `c` resolves to
the native integer 5 as the claim states, but the embedded token in
`d = "val-{{a.b}}"` also resolves to the bare integer 5 —
`FromDictInjector.resolve` returns int/bool leaves unconditionally on a
placeholder hit, discarding the surrounding text instead of producing the
string `"val-5"`. -/
theorem embedded_int_interpolation_drops_text :
    fromDictResolve (parse_leaves "" c1doc) "\x7b\x7ba.b\x7d\x7d" = .ok (.int 5) ∧
    fromDictResolve (parse_leaves "" c1doc) "val-\x7b\x7ba.b\x7d\x7d" = .ok (.int 5) ∧
    resolve_interpolations c1doc =
      .ok (.dict [("a", .dict [("b", .int 5)]), ("c", .int 5), ("d", .int 5)]) ∧
    Value.int 5 ≠ Value.str "val-5" := by
  refine ⟨rfl, rfl, rfl, ?_⟩
  intro h
  cases h

/-- The textual-embedding branch does work for string leaves, showing the
int/bool early return is the odd one out. -/
theorem embedded_string_interpolation_is_textual :
    fromDictResolve [("a.b", .str "5")] "val-\x7b\x7ba.b\x7d\x7d" =
      .ok (.str "val-5") := rfl

/-! ### C6: empty hierarchy levels -/

/-- C6 counterexample: a hierarchy whose first level contributes zero files
merges fine as long as some other level contributes at least one file — no
error is raised for the empty level. -/
theorem empty_level_no_error_counterexample :
    process_hierarchy overrideMerger true "env=prod" [[], ["env=prod/a.yaml"]]
      (fun _ => [("x", Value.int 1)]) (fun _ => ".") = .ok [("x", Value.int 1)] := rfl

/-- C6 (amended): `process_hierarchy` raises "No YAML files found to
process in the hierarchy" only when the hierarchy as a whole contributes
zero files; and when at least one file is merged successfully the run
returns the merged mapping with no such error. -/
theorem no_yaml_files_error_behaviour :
    (∀ (mc : Value → Value → Except String Value) pathStr
        (hierarchy : List (List String)) contents dirOf,
      hierarchy.flatten = [] →
      process_hierarchy mc true pathStr hierarchy contents dirOf =
        .error "No YAML files found to process in the hierarchy") ∧
    (∀ (mc : Value → Value → Except String Value) pathStr
        (hierarchy : List (List String)) contents dirOf m,
      hierarchy.flatten ≠ [] →
      processFiles mc contents dirOf hierarchy.flatten [] = .ok m →
      process_hierarchy mc true pathStr hierarchy contents dirOf = .ok m) := by
  constructor
  · intro mc pathStr hierarchy contents dirOf h
    simp [process_hierarchy, h, processFiles]
  · intro mc pathStr hierarchy contents dirOf m h hok
    have hlen : hierarchy.flatten.length ≠ 0 := fun h0 => h (List.length_eq_zero.1 h0)
    simp [process_hierarchy, hok]
    simpa using hlen

/-- Witness for C6: an all-empty hierarchy raises; a one-file hierarchy
returns its merged content. -/
theorem no_yaml_files_error_behaviour_witness :
    process_hierarchy overrideMerger true "p" [[], []]
      (fun _ => []) (fun _ => ".") =
      .error "No YAML files found to process in the hierarchy" ∧
    process_hierarchy overrideMerger true "p" [["a.yaml"]]
      (fun _ => [("x", Value.int 1)]) (fun _ => ".") = .ok [("x", Value.int 1)] :=
  ⟨no_yaml_files_error_behaviour.1 overrideMerger "p" [[], []] (fun _ => [])
     (fun _ => ".") rfl,
   no_yaml_files_error_behaviour.2 overrideMerger "p" [["a.yaml"]]
     (fun _ => [("x", Value.int 1)]) (fun _ => ".") [("x", Value.int 1)]
     (by decide) rfl⟩

/-! ### C10: validation skipping in `ConfigProcessor.process` -/

/-- C10: whenever `skip_interpolations` or `skip_secrets` is set, `process`
behaves exactly as if `skip_interpolation_validation` were set — the
validation step is skipped even when that flag is false — and on the
spec's unresolved document such runs return the literal token with no
error. -/
theorem process_skips_validation_with_skip_flags :
    (∀ (mc : Value → Value → Except String Value) env inject remote
        (a : ProcessArgs) data,
      (a.skip_interpolations || a.skip_secrets) = true →
      process mc env inject remote a data =
        process mc env inject remote
          ⟨a.exclude_keys, a.filters, a.skip_interpolations, true,
            a.skip_secrets⟩ data) ∧
    process overrideMerger noEnvF idSecretF .null ⟨[], [], false, false, true⟩
      missdoc = .ok missdoc ∧
    process overrideMerger noEnvF idSecretF .null ⟨[], [], true, false, false⟩
      missdoc = .ok missdoc := by
  refine ⟨?_, rfl, rfl⟩
  intro mc env inject remote a data h
  obtain ⟨ek, fl, si, sv, ss⟩ := a
  simp only [Bool.or_eq_true] at h
  cases hsi : si <;> cases hss : ss <;>
    simp_all [process, processInterpolationPasses,
      should_skip_interpolation_validation]

/-- Witness for C10: with `skip_secrets` set, the run equals the run with
validation explicitly skipped. -/
theorem process_skips_validation_with_skip_flags_witness :
    process overrideMerger noEnvF idSecretF .null ⟨[], [], false, false, true⟩
      missdoc =
    process overrideMerger noEnvF idSecretF .null ⟨[], [], false, true, true⟩
      missdoc :=
  process_skips_validation_with_skip_flags.1 overrideMerger noEnvF idSecretF
    .null ⟨[], [], false, false, true⟩ missdoc rfl

/-! ### C7: lexicographic file ordering and later-file precedence -/

theorem charListLe_total : ∀ x y : List Char,
    charListLe x y = true ∨ charListLe y x = true := by
  intro x
  induction x with
  | nil => intro y; exact Or.inl rfl
  | cons a as ih =>
    intro y
    cases y with
    | nil => exact Or.inr rfl
    | cons b bs =>
      rcases Nat.lt_trichotomy a.toNat b.toNat with h | h | h
      · exact Or.inl (by simp [charListLe, h])
      · cases ih bs with
        | inl h2 => exact Or.inl (by simp [charListLe, h, h2, Nat.lt_irrefl])
        | inr h2 => exact Or.inr (by simp [charListLe, h.symm, h2, Nat.lt_irrefl])
      · exact Or.inr (by simp [charListLe, h])

theorem charListLe_trans : ∀ x y z : List Char,
    charListLe x y = true → charListLe y z = true → charListLe x z = true := by
  intro x
  induction x with
  | nil => intro y z h1 h2; rfl
  | cons a as ih =>
    intro y z h1 h2
    cases y with
    | nil => simp [charListLe] at h1
    | cons b bs =>
      cases z with
      | nil => simp [charListLe] at h2
      | cons c cs =>
        simp only [charListLe] at h1 h2 ⊢
        by_cases hab : a.toNat < b.toNat
        · by_cases hbc : b.toNat < c.toNat
          · simp [Nat.lt_trans hab hbc]
          · simp [hbc] at h2
            by_cases hbc2 : b.toNat = c.toNat
            · simp [hbc2 ▸ hab]
            · simp [hbc2] at h2
        · simp [hab] at h1
          by_cases hab2 : a.toNat = b.toNat
          · simp [hab2] at h1
            by_cases hbc : b.toNat < c.toNat
            · simp [hab2 ▸ hbc]
            · simp [hbc] at h2
              by_cases hbc2 : b.toNat = c.toNat
              · simp [hbc2] at h2
                simp [hab2.trans hbc2, Nat.lt_irrefl, ih bs cs h1 h2]
              · simp [hbc2] at h2
          · simp [hab2] at h1

instance : IsTotal String (fun a b => fileLe a b = true) :=
  ⟨fun a b => charListLe_total a.toList b.toList⟩

instance : IsTrans String (fun a b => fileLe a b = true) :=
  ⟨fun a b c => charListLe_trans a.toList b.toList c.toList⟩

/-- Folding the per-file merge over a concatenation splits at the seam. -/
theorem processFiles_append (mc : Value → Value → Except String Value)
    (contents : String → List (String × Value)) (dirOf : String → String) :
    ∀ (xs ys : List String) acc,
      processFiles mc contents dirOf (xs ++ ys) acc =
        (processFiles mc contents dirOf xs acc).bind
          (processFiles mc contents dirOf ys) := by
  intro xs
  induction xs with
  | nil => intro ys acc; simp [processFiles, Except.bind]
  | cons f rest ih =>
    intro ys acc
    simp only [List.cons_append, processFiles]
    cases merge_yamls mc acc (contents f) with
    | error e => simp [Except.bind]
    | ok m => simp [ih]

/-- The `cwd` substitution pass maps the stored value pointwise. -/
theorem alookup_mapDocStringsDict (f : String → Value)
    (m : List (String × Value)) (key : String) :
    alookup (mapDocStringsDict f m) key = (alookup m key).map (mapDocStrings f) := by
  induction m with
  | nil => simp [mapDocStringsDict, alookup]
  | cons kv rest ih =>
    obtain ⟨k, v⟩ := kv
    by_cases hk : k = key
    · simp [mapDocStringsDict, alookup, hk]
    · simp [mapDocStringsDict, alookup, hk, ih]

/-- Files that never mention `key` preserve the accumulated entry for
`key`, provided the entry's value is untouched by the `cwd` substitution. -/
theorem processFiles_lookup_preserved (mc : Value → Value → Except String Value)
    (contents : String → List (String × Value)) (dirOf : String → String)
    (key : String) (v : Value)
    (hfix : ∀ dir, mapDocStrings
      (fun s => .str (replace_parent_working_directory s dir)) v = v) :
    ∀ (fs : List String) acc m,
      (∀ f ∈ fs, ∀ p ∈ contents f, p.1 ≠ key) →
      alookup acc key = some v →
      processFiles mc contents dirOf fs acc = .ok m →
      alookup m key = some v := by
  intro fs
  induction fs with
  | nil =>
    intro acc m _ hacc hok
    simp [processFiles] at hok
    exact hok ▸ hacc
  | cons f rest ih =>
    intro acc m hks hacc hok
    simp only [processFiles] at hok
    cases hmerge : merge_yamls mc acc (contents f) with
    | error e => rw [hmerge] at hok; exact absurd hok (by simp)
    | ok m1 =>
      rw [hmerge] at hok
      have h1 : alookup m1 key = some v := by
        rw [merge_yamls_lookup_preserved mc (contents f) key
          (hks f (List.mem_cons_self _ _)) acc m1 hmerge]
        exact hacc
      have h2 : alookup (resolve_simple_interpolations (dirOf f) m1) key = some v := by
        rw [resolve_simple_interpolations, alookup_mapDocStringsDict, h1]
        simp [hfix (dirOf f)]
      exact ih _ _ (fun g hg => hks g (List.mem_cons_of_mem _ hg)) h2 hok

/-- C7: within a directory only `.yaml` files are kept and they are merged
in ascending lexicographic order of their (joined) names; consequently, for
a file `f` that sets a primitive value for `key` while every file merged
after it leaves `key` alone, a successful hierarchy run ends with `f`'s
value at `key` — the lexicographically later file wins. -/
theorem hierarchy_sorted_and_later_file_wins :
    (∀ path listing,
      (get_yaml_from_path path listing).Pairwise (fun a b => fileLe a b = true) ∧
      (get_yaml_from_path path listing).Perm
        ((listing.filter (fun f => strEndsWith f ".yaml")).map
          (fun f => path ++ "/" ++ f))) ∧
    (∀ (mc : Value → Value → Except String Value) pathStr
        (hierarchy : List (List String)) contents dirOf
        (key : String) (v : Value) (L1 L2 : List String) (f : String) m,
      hierarchy.flatten = L1 ++ f :: L2 →
      ((contents f).map Prod.fst).Nodup →
      alookup (contents f) key = some v →
      isPrimitiveValue v = true →
      (∀ dir, mapDocStrings
        (fun s => .str (replace_parent_working_directory s dir)) v = v) →
      (∀ g ∈ L2, ∀ p ∈ contents g, p.1 ≠ key) →
      process_hierarchy mc true pathStr hierarchy contents dirOf = .ok m →
      alookup m key = some v) := by
  constructor
  · intro path listing
    exact ⟨List.sorted_insertionSort _ _, List.perm_insertionSort _ _⟩
  · intro mc pathStr hierarchy contents dirOf key v L1 L2 f m
      hsplit hnodup hlookf hprim hfix hrest hok
    have hfiles : processFiles mc contents dirOf hierarchy.flatten [] = .ok m := by
      have hsum : ¬ (List.map List.length hierarchy).sum = 0 := by
        have hlen : hierarchy.flatten.length ≠ 0 := by
          rw [hsplit]; simp
        rwa [List.length_flatten] at hlen
      unfold process_hierarchy at hok
      simp at hok
      cases hpf : processFiles mc contents dirOf hierarchy.flatten [] with
      | error e => rw [hpf] at hok; exact absurd hok (by simp)
      | ok m0 =>
        rw [hpf] at hok
        simp [hsum] at hok
        rw [hok]
    rw [hsplit, processFiles_append] at hfiles
    cases hL1 : processFiles mc contents dirOf L1 [] with
    | error e => rw [hL1] at hfiles; exact absurd hfiles (by simp [Except.bind])
    | ok acc1 =>
      rw [hL1] at hfiles
      simp only [Except.bind] at hfiles
      simp only [processFiles] at hfiles
      cases hmerge : merge_yamls mc acc1 (contents f) with
      | error e => rw [hmerge] at hfiles; exact absurd hfiles (by simp)
      | ok m2 =>
        rw [hmerge] at hfiles
        have h2 : alookup m2 key = some v :=
          merge_incoming_primitive_wins mc acc1 (contents f) key v hnodup
            hlookf hprim m2 hmerge
        have h3 : alookup (resolve_simple_interpolations (dirOf f) m2) key = some v := by
          rw [resolve_simple_interpolations, alookup_mapDocStringsDict, h2]
          simp [hfix (dirOf f)]
        exact processFiles_lookup_preserved mc contents dirOf key v hfix
          L2 _ m hrest h3 hfiles

/-- Witness for C7 with the spec's hierarchy: `default.yaml` at the root,
`a.yaml` and `b.yaml` under `env=prod`, all setting `x`; the merged `x` is
`b.yaml`'s value. -/
theorem hierarchy_sorted_and_later_file_wins_witness :
    alookup [("x", Value.int 2)] "x" = some (Value.int 2) :=
  hierarchy_sorted_and_later_file_wins.2 overrideMerger "env=prod"
    [["default.yaml"], ["env=prod/a.yaml", "env=prod/b.yaml"]]
    (fun g => if g = "default.yaml" then [("x", Value.int 0)]
      else if g = "env=prod/a.yaml" then [("x", Value.int 1)]
      else [("x", Value.int 2)])
    (fun _ => ".") "x" (Value.int 2)
    ["default.yaml", "env=prod/a.yaml"] [] "env=prod/b.yaml"
    [("x", Value.int 2)] rfl (by decide) rfl rfl (fun _ => rfl)
    (by simp) rfl

end Himl

/-! Regression checks mirroring the repository's unit tests
(`tests/test_interpolation.py`) for the regular-expression model. -/
example : Himl.is_interpolation "\x7b\x7benv.name\x7d\x7d" = true := by decide
example : Himl.is_interpolation "prefix \x7b\x7benv.name\x7d\x7d suffix" = true := by decide
example : Himl.is_interpolation "no interpolation" = false := by decide
example : Himl.is_interpolation "\x7b\x7b`escaped`\x7d\x7d" = false := by decide
example : Himl.is_escaped_interpolation "\x7b\x7b`escaped`\x7d\x7d" = true := by decide
example : Himl.is_escaped_interpolation "pre \x7b\x7b`escaped`\x7d\x7d suf" = true := by decide
example : Himl.is_escaped_interpolation "\x7b\x7bnormal\x7d\x7d" = false := by decide
example : Himl.is_full_interpolation "\x7b\x7benv.name\x7d\x7d" = true := by decide
example : Himl.is_full_interpolation "pre \x7b\x7benv.name\x7d\x7d" = false := by decide
example : Himl.is_full_interpolation "\x7b\x7b`escaped`\x7d\x7d" = false := by decide
example : Himl.is_fully_escaped_interpolation "\x7b\x7b`escaped`\x7d\x7d" = true := by decide
example : Himl.is_fully_escaped_interpolation "pre \x7b\x7b`e`\x7d\x7d" = false := by decide
example : Himl.remove_white_spaces "  hello   world  " = "helloworld" := by decide
-- a token with fewer than two characters between the braces never matches
example : Himl.is_interpolation "\x7b\x7ba\x7d\x7d" = false := by decide
example : Himl.is_interpolation "\x7b\x7bab\x7d\x7d" = true := by decide
